import Mathlib

/-!
# Verification of the LangGraph notebook scratchpad

A shallow embedding of the two notebooks in this repository:

* `state-model-with-persistence.ipynb` — a chat executor over a pydantic
  `AgentState` (one `append`-annotated `messages` field), with nodes
  `call_model` / `call_tool`, router `should_continue`, and a Sqlite
  checkpointer.
* the plan-and-execute notebook — a `PlanExecute` state with fields
  `input`, `messages` (append), `plan`, `past_steps` (append), `response`,
  nodes `plan_step` / `execute_step` / `replan_step`, router `should_end`,
  and a compiled sub-graph (`executor_agent`) invoked from `execute_step`.

The LangGraph engine itself (channel reducers, the superstep scheduler,
the recursion limit, the checkpointer) is not part of this repository;
those parts are modelled from the spec, and each such definition carries a
doc comment saying so.  Node bodies that call external collaborators (the
LLM, the search tool) are opaque; they appear as function parameters.
-/

/-! ## Merge policies (the engine's reducers) -/

/-- Modelled from the spec: the engine's `replace` reducer.  The LangGraph
channel implementation is not in the repository; per the spec,
`next[k] = partial[k]` if present, else `current[k]`. -/
def mergeReplace {α : Type} (current : α) (upd : Option α) : α :=
  upd.getD current

/-- Modelled from the spec: the engine's `append` reducer (the
`operator.add` annotation on `messages` / `past_steps` /
`intermediate_steps`).  `next[k] = current[k] ++ partial[k]` if present,
else `current[k]`. -/
def mergeAppend {α : Type} (current : List α) (upd : Option (List α)) : List α :=
  current ++ upd.getD []

/-! ## Messages

`BaseMessage` from `langchain_core`: the notebooks use `HumanMessage`,
`AIMessage` (whose `additional_kwargs` may hold a `"function_call"` entry
with `name` and `arguments`) and `FunctionMessage` (which carries a tool
`name`). -/

inductive Role : Type
  | human
  | ai
  | function
deriving DecidableEq, Repr

/-- The `"function_call"` entry of a message's `additional_kwargs`. -/
structure FunctionCall : Type where
  name : String
  arguments : String
deriving DecidableEq, Repr

structure Message : Type where
  role : Role
  content : String
  /-- The `additional_kwargs["function_call"]` entry, when the key is present. -/
  functionCall : Option FunctionCall
  /-- the `name` attribute of a `FunctionMessage` -/
  name : Option String
deriving DecidableEq, Repr

def humanMessage (content : String) : Message :=
  ⟨Role.human, content, none, none⟩

def aiMessage (content : String) : Message :=
  ⟨Role.ai, content, none, none⟩

/-! ## Notebook 1: the chat executor (`state-model-with-persistence.ipynb`) -/

/-- Source `class AgentState(BaseModel)`: `messages: Annotated[Sequence[BaseMessage], operator.add]`. -/
structure AgentState : Type where
  messages : List Message
deriving DecidableEq, Repr

/-- Modelled from the spec: merging a node's partial update
`{"messages": [...]}` into `AgentState` uses the `append` reducer. -/
def mergeChat (s : AgentState) (upd : List Message) : AgentState :=
  ⟨mergeAppend s.messages (some upd)⟩

/-- Source `should_continue`: inspect `messages[-1]`; if
`"function_call" not in last_message.additional_kwargs` return `"end"`,
else `"continue"`.  `none` models the `IndexError` on an empty list. -/
def should_continue (state : AgentState) : Option String :=
  match state.messages.getLast? with
  | none => none
  | some last =>
      if last.functionCall.isNone then some "end" else some "continue"

/-- Source `call_model`: `response = model.invoke(messages)`,
returning `{"messages": [response]}`.  The model is the opaque external
collaborator `modelFn`. -/
def call_model (modelFn : List Message → Message) (state : AgentState) :
    List Message :=
  [modelFn state.messages]

/-- Source `call_tool`: build a `ToolInvocation` from
`messages[-1].additional_kwargs["function_call"]`, invoke the tool
executor (the opaque `toolFn`), and return
`{"messages": [FunctionMessage(content=str(response), name=action.tool)]}`.
`none` models the `IndexError` / `KeyError` when the last message is
missing or carries no function call. -/
def call_tool (toolFn : FunctionCall → String) (state : AgentState) :
    Option (List Message) :=
  match state.messages.getLast? with
  | none => none
  | some last =>
      match last.functionCall with
      | none => none
      | some fc => some [⟨Role.function, toolFn fc, none, some fc.name⟩]

/-- The two nodes of the chat-executor graph (`"agent"` = `call_model`,
`"action"` = `call_tool`). -/
inductive ChatNode : Type
  | agent
  | action
deriving DecidableEq, Repr

/-- How a run can abort. -/
inductive RunError : Type
  | recursionLimit
  | nodeError
  | routingError
deriving DecidableEq, Repr

/-- Modelled from the spec: one `agent` superstep — execute `call_model`,
merge its update into state, then evaluate the router on the merged
state. -/
def agentSuperstep (modelFn : List Message → Message) (s : AgentState) :
    AgentState × Option String :=
  let s' := mergeChat s (call_model modelFn s)
  (s', should_continue s')

/-- Modelled from the spec: the superstep loop of the compiled
chat-executor graph (entry point `agent`; conditional edges
`"continue" ↦ action`, `"end" ↦ END`; static edge `action → agent`),
with fuel standing for the remaining recursion budget. -/
def runChat (modelFn : List Message → Message) (toolFn : FunctionCall → String) :
    Nat → ChatNode → AgentState → Except RunError AgentState
  | 0, _, _ => .error .recursionLimit
  | fuel + 1, .agent, s =>
      match (agentSuperstep modelFn s).2 with
      | none => .error .nodeError
      | some outcome =>
          if outcome = "continue" then
            runChat modelFn toolFn fuel .action (agentSuperstep modelFn s).1
          else if outcome = "end" then .ok (agentSuperstep modelFn s).1
          else .error .routingError
  | fuel + 1, .action, s =>
      match call_tool toolFn s with
      | none => .error .nodeError
      | some upd => runChat modelFn toolFn fuel .agent (mergeChat s upd)

/-- Modelled from the spec: one top-level invocation on a thread.  The
latest checkpoint for the thread (if any) is restored, the caller's
partial input `{"messages": input}` is merged into it via the `append`
reducer, and the run re-enters at the entry point `agent`. -/
def invokeChat (modelFn : List Message → Message) (toolFn : FunctionCall → String)
    (fuel : Nat) (saved : Option AgentState) (input : List Message) :
    Except RunError AgentState :=
  runChat modelFn toolFn fuel .agent (mergeChat (saved.getD ⟨[]⟩) input)

/-! ## Notebook 2: plan-and-execute — the executor sub-graph -/

/-- The `AgentAction` type of `langchain_core.agents`: a tool call with `tool`
and `tool_input` (here the raw arguments string). -/
structure AgentAction : Type where
  tool : String
  toolInput : String
deriving DecidableEq, Repr

/-- The output of the `agent_runnable` (and hence the `agent_outcome`
field once set): either an `AgentAction` or an `AgentFinish` whose
`return_values["output"]` is the carried string. -/
inductive SubOutcome : Type
  | action (a : AgentAction)
  | finish (output : String)
deriving DecidableEq, Repr

/-- Source `class ExecAgentState(TypedDict)` — the sub-graph's state.
`agent_outcome` starts as `None`; `intermediate_steps` is annotated with
`operator.add` (append). -/
structure ExecAgentState : Type where
  input : String
  chat_history : List Message
  agent_outcome : Option SubOutcome
  intermediate_steps : List (AgentAction × String)
deriving DecidableEq, Repr

/-- A partial update for `ExecAgentState` (a node touches only some
fields). -/
structure ExecUpdate : Type where
  input : Option String := none
  chat_history : Option (List Message) := none
  agent_outcome : Option (Option SubOutcome) := none
  intermediate_steps : Option (List (AgentAction × String)) := none
deriving DecidableEq, Repr

/-- Modelled from the spec: merging a partial update into the sub-graph's
state — `input`, `chat_history` and `agent_outcome` are `replace` fields,
`intermediate_steps` is an `append` field. -/
def mergeExec (s : ExecAgentState) (u : ExecUpdate) : ExecAgentState where
  input := mergeReplace s.input u.input
  chat_history := mergeReplace s.chat_history u.chat_history
  agent_outcome := mergeReplace s.agent_outcome u.agent_outcome
  intermediate_steps := mergeAppend s.intermediate_steps u.intermediate_steps

/-- Source `run_agent`: `agent_outcome = await
agent_runnable.ainvoke(data); return {"agent_outcome": agent_outcome}`.
The runnable (prompt | model | output parser) is the opaque `agentFn`. -/
def run_agent (agentFn : ExecAgentState → SubOutcome) (data : ExecAgentState) :
    ExecUpdate :=
  { agent_outcome := some (some (agentFn data)) }

/-- The sub-graph's `should_continue`: `"end"` iff
`isinstance(data["agent_outcome"], AgentFinish)`, else `"continue"`. -/
def sub_should_continue (data : ExecAgentState) : String :=
  match data.agent_outcome with
  | some (SubOutcome.finish _) => "end"
  | _ => "continue"

/-- Python's `str()` applied to a per-item batch result under
`return_exceptions=True`: a success is its output string, a failure is
the rendered exception. -/
def strOfResult : Except String String → String
  | .ok v => v
  | .error e => e

/-- Modelled from the spec: `tool_executor.abatch(actions,
return_exceptions=True)` — invoke the opaque tool once per item,
collecting results positionally; a per-item failure is returned as a
per-item error value instead of aborting the batch. -/
def tool_executor_abatch (toolRun : AgentAction → Except String String)
    (acts : List AgentAction) : List (Except String String) :=
  acts.map toolRun

/-- The core of `execute_tools` from the notebook, after the
single-action wrap: `output = await tool_executor.abatch(agent_action,
return_exceptions=True); return {"intermediate_steps": [(action,
str(out)) for action, out in zip(agent_action, output)]}`. -/
def execute_tools_core (toolRun : AgentAction → Except String String)
    (acts : List AgentAction) : List (AgentAction × String) :=
  (acts.zip (tool_executor_abatch toolRun acts)).map
    fun p => (p.1, strOfResult p.2)

/-- Source `execute_tools`: read `data["agent_outcome"]`, wrap
it into a singleton list when it is not already a list, batch the tool
executor over it, and return the zipped `intermediate_steps` update.
`none` models the access failing when the outcome is not a tool call. -/
def execute_tools (toolRun : AgentAction → Except String String)
    (data : ExecAgentState) : Option ExecUpdate :=
  match data.agent_outcome with
  | some (SubOutcome.action a) =>
      some { intermediate_steps := some (execute_tools_core toolRun [a]) }
  | _ => none

/-- The two nodes of the executor sub-graph (`"subagent"` = `run_agent`,
`"action"` = `execute_tools`). -/
inductive SubNode : Type
  | subagent
  | action
deriving DecidableEq, Repr

/-- Modelled from the spec: the superstep loop of the compiled
`executor_agent` sub-graph (entry point `subagent`; conditional edges
`"continue" ↦ action`, `"end" ↦ END`; static edge `action → subagent`). -/
def runSub (agentFn : ExecAgentState → SubOutcome)
    (toolRun : AgentAction → Except String String) :
    Nat → SubNode → ExecAgentState → Except RunError ExecAgentState
  | 0, _, _ => .error .recursionLimit
  | fuel + 1, .subagent, s =>
      let s' := mergeExec s (run_agent agentFn s)
      match sub_should_continue s' with
      | "continue" => runSub agentFn toolRun fuel .action s'
      | "end" => .ok s'
      | _ => .error .routingError
  | fuel + 1, .action, s =>
      match execute_tools toolRun s with
      | none => .error .nodeError
      | some u => runSub agentFn toolRun fuel .subagent (mergeExec s u)

/-! ## Notebook 2: plan-and-execute — the parent graph -/

/-- Source `class PlanExecute(TypedDict)` — the parent state.  `messages` and
`past_steps` are annotated with `operator.add` (append); `input`, `plan`
and `response` are plain (replace) fields, absent (`none`) until first
written. -/
structure PlanExecute : Type where
  input : Option String
  messages : List Message
  plan : Option (List String)
  past_steps : List (String × String)
  response : Option String
deriving DecidableEq, Repr

/-- A partial update for `PlanExecute`. -/
structure PEUpdate : Type where
  input : Option String := none
  messages : Option (List Message) := none
  plan : Option (List String) := none
  past_steps : Option (List (String × String)) := none
  response : Option String := none
deriving DecidableEq, Repr

/-- Modelled from the spec: merging a partial update into `PlanExecute` —
`messages` and `past_steps` use the `append` reducer, the rest use
`replace`. -/
def mergePE (s : PlanExecute) (u : PEUpdate) : PlanExecute where
  input := mergeReplace s.input (u.input.map some)
  messages := mergeAppend s.messages u.messages
  plan := mergeReplace s.plan (u.plan.map some)
  past_steps := mergeAppend s.past_steps u.past_steps
  response := mergeReplace s.response (u.response.map some)

/-- The four possible outputs of the `replanner` runnable (`Plan`,
`Response`, `QuestionToUser`, `ImpossiblePlanResponse`). -/
inductive ReplanOutput : Type
  | plan (steps : List String)
  | response (r : String)
  | question (q : String)
  | impossible (s : String)
deriving DecidableEq, Repr

/-- Source `plan_step`: `plan = await
planner.ainvoke({"objective": state["input"], "chat_history":
state["messages"]}); return {"plan": plan.steps, "response": ""}`.
The planner is the opaque `plannerFn`; the error models the `KeyError`
when `input` was never written. -/
def plan_step (plannerFn : String → List Message → List String)
    (state : PlanExecute) : Except RunError PEUpdate :=
  match state.input with
  | none => .error .nodeError
  | some objective =>
      .ok { plan := some (plannerFn objective state.messages)
            response := some "" }

/-- Source `execute_step`: `task = state["plan"][0];
agent_response = await executor_agent.ainvoke({"input": task,
"chat_history": state["messages"]}); return {"past_steps": [(task,
agent_response['agent_outcome'].return_values['output'])]}`.  The
`nodeError`s model the `KeyError`/`IndexError` on a missing or empty plan
and the attribute access on a non-`AgentFinish` outcome. -/
def execute_step (agentFn : ExecAgentState → SubOutcome)
    (toolRun : AgentAction → Except String String) (subFuel : Nat)
    (state : PlanExecute) : Except RunError PEUpdate :=
  match state.plan with
  | none => .error .nodeError
  | some [] => .error .nodeError
  | some (task :: _) =>
      match runSub agentFn toolRun subFuel .subagent
          ⟨task, state.messages, none, []⟩ with
      | .error e => .error e
      | .ok final =>
          match final.agent_outcome with
          | some (SubOutcome.finish out) =>
              .ok { past_steps := some [(task, out)] }
          | _ => .error .nodeError

/-- Source `replan_step`: invoke the replanner on the whole
state; a `Response` / `QuestionToUser` / `ImpossiblePlanResponse` output
sets `response` and appends one `AIMessage` carrying the same text; a
`Plan` output only replaces `plan`. -/
def replan_step (replannerFn : PlanExecute → ReplanOutput)
    (state : PlanExecute) : PEUpdate :=
  match replannerFn state with
  | .response r => { response := some r, messages := some [aiMessage r] }
  | .question q => { response := some q, messages := some [aiMessage q] }
  | .impossible s => { response := some s, messages := some [aiMessage s] }
  | .plan steps => { plan := some steps }

/-- Source `should_end`: `True` iff `"response" in state and
state["response"]` (a present, non-empty string). -/
def should_end (state : PlanExecute) : Bool :=
  match state.response with
  | some r => r ≠ ""
  | none => false

/-- The three nodes of the parent graph (`"planner"`, `"agent"` =
`execute_step`, `"replan"`). -/
inductive PENode : Type
  | planner
  | agent
  | replan
deriving DecidableEq, Repr

/-- Modelled from the spec: the superstep loop of the compiled
plan-and-execute graph (entry `planner`; static edges `planner → agent`,
`agent → replan`; conditional edges from `replan`: `True ↦ END`,
`False ↦ agent`), with the fuel standing for the recursion budget. -/
def runPE (plannerFn : String → List Message → List String)
    (agentFn : ExecAgentState → SubOutcome)
    (toolRun : AgentAction → Except String String)
    (replannerFn : PlanExecute → ReplanOutput) (subFuel : Nat) :
    Nat → PENode → PlanExecute → Except RunError PlanExecute
  | 0, _, _ => .error .recursionLimit
  | fuel + 1, .planner, s =>
      match plan_step plannerFn s with
      | .error e => .error e
      | .ok u => runPE plannerFn agentFn toolRun replannerFn subFuel
          fuel .agent (mergePE s u)
  | fuel + 1, .agent, s =>
      match execute_step agentFn toolRun subFuel s with
      | .error e => .error e
      | .ok u => runPE plannerFn agentFn toolRun replannerFn subFuel
          fuel .replan (mergePE s u)
  | fuel + 1, .replan, s =>
      let s' := mergePE s (replan_step replannerFn s)
      if should_end s' then .ok s'
      else runPE plannerFn agentFn toolRun replannerFn subFuel fuel .agent s'

/-- The state of a fresh thread, before any update. -/
def emptyPE : PlanExecute :=
  ⟨none, [], none, [], none⟩

/-- Source `run_app`, as one invocation: `inputs = {"input":
input}` is merged into the thread's restored checkpoint (or a fresh
state), and the run re-enters at the entry point `planner` with the
configured recursion limit as fuel. -/
def run_app (plannerFn : String → List Message → List String)
    (agentFn : ExecAgentState → SubOutcome)
    (toolRun : AgentAction → Except String String)
    (replannerFn : PlanExecute → ReplanOutput) (subFuel : Nat)
    (recursion_limit : Nat) (saved : Option PlanExecute) (input : String) :
    Except RunError PlanExecute :=
  runPE plannerFn agentFn toolRun replannerFn subFuel recursion_limit .planner
    (mergePE (saved.getD emptyPE) { input := some input })

/-! ## The generic superstep loop with a recursion limit -/

/-- Outcome of a limited run: either the terminal state together with the
committed checkpoints, or an abort recording the 1-based index of the
superstep at which the limit was hit and the checkpoints committed so
far. -/
inductive LimitedOutcome (ν σ : Type) : Type
  | done (final : σ) (checkpoints : List σ)
  | limitExceeded (abortedAtStep : Nat) (checkpoints : List σ)
deriving DecidableEq, Repr

/-- Modelled from the spec: the scheduler's superstep loop with a
configured recursion limit.  `step node s` executes the active node and
returns the merged next state together with the routed next node (`none`
meaning the terminal outcome).  `i` is the 1-based index of the superstep
about to run, `rem` the remaining budget, `cps` the committed
checkpoints; every completed superstep commits its state before the next
one starts, and exhausting the budget aborts without committing anything
further. -/
def runLimited {ν σ : Type} (step : ν → σ → σ × Option ν) :
    Nat → Nat → ν → σ → List σ → LimitedOutcome ν σ
  | 0, i, _, _, cps => .limitExceeded i cps
  | rem + 1, i, node, s, cps =>
      match step node s with
      | (s', none) => .done s' (cps ++ [s'])
      | (s', some n') => runLimited step rem (i + 1) n' s' (cps ++ [s'])

/-- Modelled from the spec: one invocation with recursion limit `limit`,
starting superstep 1 at the entry point with no committed checkpoints. -/
def invokeLimited {ν σ : Type} (step : ν → σ → σ × Option ν)
    (limit : Nat) (entry : ν) (init : σ) : LimitedOutcome ν σ :=
  runLimited step limit 1 entry init []

/-! ## Concrete instantiations of the opaque collaborators

These stand in for the external model, tool, planner and replanner when a
property is evaluated on a concrete run. -/

/-- A scripted chat model: on the initial single-message history it
answers with a `function_call`, afterwards it answers plainly. -/
def cModelScript : List Message → Message := fun ms =>
  if ms.length = 1 then ⟨Role.ai, "calling", some ⟨"tavily_answer", "{}"⟩, none⟩
  else ⟨Role.ai, "done", none, none⟩

/-- A scripted chat model that always finishes immediately. -/
def cModelPlain : List Message → Message := fun _ => aiMessage "resp"

/-- A constant tool executor. -/
def cToolConst : FunctionCall → String := fun _ => "observation"

/-- A step function that never routes to the terminal outcome. -/
def cStepLoop : Unit → Nat → Nat × Option Unit := fun _ n => (n + 1, some ())

/-- A planner returning an empty plan (a schema-conformant output the
opaque planner may produce). -/
def cPlannerEmpty : String → List Message → List String := fun _ _ => []

/-- A planner returning a one-step plan. -/
def cPlannerOne : String → List Message → List String := fun _ _ => ["step"]

/-- A sub-graph agent that immediately returns an `AgentFinish`. -/
def cAgentFinish : ExecAgentState → SubOutcome := fun _ => SubOutcome.finish "done"

/-- A tool runner that always succeeds. -/
def cToolOk : AgentAction → Except String String := fun _ => Except.ok "obs"

/-- A replanner that always answers with a final `Response`. -/
def cReplanResp : PlanExecute → ReplanOutput := fun _ => ReplanOutput.response "answer"

/-- The parent state right after merging the caller's input `{"input": "q"}`
into a fresh thread. -/
def peStart : PlanExecute := ⟨some "q", [], none, [], none⟩

/-- The scheduling invariant of the plan-and-execute graph: at the entry
node the caller's `input` has been supplied; at `agent` and `replan` the
`plan` field has been written and is non-empty. -/
def PEinv : PENode → PlanExecute → Prop
  | PENode.planner, s => s.input.isSome = true
  | _, s => ∃ l, s.plan = some l ∧ l ≠ []

/-! ## Helper lemmas -/

lemma execute_tools_core_eq_map (toolRun : AgentAction → Except String String)
    (acts : List AgentAction) :
    execute_tools_core toolRun acts =
      acts.map fun a => (a, strOfResult (toolRun a)) := by
  induction acts with
  | nil => rfl
  | cons a as ih =>
      simpa [execute_tools_core, tool_executor_abatch] using ih

lemma foldl_mergeAppend {α : Type} (c : List α) (us : List (List α)) :
    List.foldl (fun s u => mergeAppend s (some u)) c us = c ++ us.flatten := by
  induction us generalizing c with
  | nil => simp
  | cons u us ih =>
      rw [List.foldl_cons, ih]
      simp [mergeAppend, List.append_assoc]

/-! ## The claims -/

/-- C1: the engine's merge sets each `replace` field to the update's value
when present (otherwise keeps the current value), sets each `append` field
to the current sequence concatenated with the update's sequence when
present (otherwise keeps it), with the empty sequence as identity; and
folding merge over a sequence of partial updates to an `append` field
yields exactly their ordered concatenation.  The last conjuncts instance
this at the `PlanExecute` and `AgentState` schemas. -/
theorem claim_C1 :
    (∀ (α : Type) (c v : α), mergeReplace c (some v) = v ∧ mergeReplace c none = c) ∧
    (∀ (α : Type) (c u : List α),
      mergeAppend c (some u) = c ++ u ∧ mergeAppend c none = c ∧
      mergeAppend ([] : List α) (some u) = u) ∧
    (∀ (α : Type) (c : List α) (us : List (List α)),
      List.foldl (fun s u => mergeAppend s (some u)) c us = c ++ us.flatten) ∧
    (∀ (s : PlanExecute) (u : PEUpdate),
      (mergePE s u).messages = mergeAppend s.messages u.messages ∧
      (mergePE s u).past_steps = mergeAppend s.past_steps u.past_steps ∧
      (mergePE s u).plan = mergeReplace s.plan (u.plan.map some)) ∧
    (∀ (s : AgentState) (u : List Message),
      (mergeChat s u).messages = s.messages ++ u) := by
  refine ⟨?_, ?_, ?_, ?_, ?_⟩
  · intro α c v; exact ⟨rfl, rfl⟩
  · intro α c u; refine ⟨rfl, by simp [mergeAppend], by simp [mergeAppend]⟩
  · intro α c us; exact foldl_mergeAppend c us
  · intro s u; exact ⟨rfl, rfl, rfl⟩
  · intro s u; rfl

/-- C5: the batched tool-execution node returns exactly one result per
input, positionally, each being the pair of the input and the rendering
of its outcome — a failure is rendered as the exception string (the error
marker) while successes are preserved, and no failure aborts the batch. -/
theorem claim_C5 (toolRun : AgentAction → Except String String)
    (acts : List AgentAction) :
    (execute_tools_core toolRun acts).length = acts.length ∧
    (∀ i : Nat, (execute_tools_core toolRun acts)[i]? =
      (acts[i]?).map fun a => (a, strOfResult (toolRun a))) ∧
    (∀ e : String, strOfResult (Except.error e) = e) ∧
    (∀ v : String, strOfResult (Except.ok v) = v) := by
  refine ⟨?_, ?_, fun e => rfl, fun v => rfl⟩
  · simp [execute_tools_core_eq_map]
  · intro i; simp [execute_tools_core_eq_map]

/-- C7: the conditional-edge router runs on the state with the producing
node's update already merged in — the state handed to `should_continue`
after the `agent` node is exactly the pre-state merged with `call_model`'s
update, its last message is the message `call_model` just produced, and
the routed outcome is `should_continue` of that merged state. -/
theorem claim_C7 (modelFn : List Message → Message) (s : AgentState) :
    (agentSuperstep modelFn s).1 = mergeChat s (call_model modelFn s) ∧
    (agentSuperstep modelFn s).1.messages.getLast? = some (modelFn s.messages) ∧
    (agentSuperstep modelFn s).2 =
      should_continue (mergeChat s (call_model modelFn s)) := by
  refine ⟨rfl, ?_, rfl⟩
  simp [agentSuperstep, mergeChat, mergeAppend, call_model]

lemma agentSuperstep_fst (modelFn : List Message → Message) (s : AgentState) :
    (agentSuperstep modelFn s).1 = ⟨s.messages ++ [modelFn s.messages]⟩ := rfl

lemma agentSuperstep_snd (modelFn : List Message → Message) (s : AgentState) :
    (agentSuperstep modelFn s).2 =
      some (if (modelFn s.messages).functionCall.isNone then "end" else "continue") := by
  simp [agentSuperstep, mergeChat, mergeAppend, call_model, should_continue, apply_ite]

lemma runChat_messages_mono (modelFn : List Message → Message)
    (toolFn : FunctionCall → String) :
    ∀ (fuel : Nat) (node : ChatNode) (s s' : AgentState),
      runChat modelFn toolFn fuel node s = Except.ok s' →
      ∃ t, s'.messages = s.messages ++ t := by
  intro fuel
  induction fuel with
  | zero => intro node s s' h; simp [runChat] at h
  | succ n ih =>
      intro node s s' h
      cases node with
      | agent =>
          simp only [runChat] at h
          rw [agentSuperstep_snd] at h
          by_cases hm : (modelFn s.messages).functionCall.isNone
          · simp only [hm, if_true, reduceCtorEq, String.reduceEq, if_false,
              if_pos rfl] at h
            simp only [Except.ok.injEq] at h
            refine ⟨[modelFn s.messages], ?_⟩
            rw [← h, agentSuperstep_fst]
          · simp only [hm, if_false, String.reduceEq, if_pos rfl] at h
            obtain ⟨t, ht⟩ := ih ChatNode.action _ _ h
            refine ⟨modelFn s.messages :: t, ?_⟩
            rw [ht, agentSuperstep_fst]
            simp
      | action =>
          simp only [runChat] at h
          rcases hct : call_tool toolFn s with _ | upd
          · rw [hct] at h; exact absurd h (by simp)
          · rw [hct] at h
            obtain ⟨t, ht⟩ := ih ChatNode.agent _ _ h
            refine ⟨upd ++ t, ?_⟩
            rw [ht]
            simp [mergeChat, mergeAppend, List.append_assoc]

lemma runChat_no_nodeError_aux (modelFn : List Message → Message)
    (toolFn : FunctionCall → String) :
    ∀ fuel : Nat,
      (∀ s, runChat modelFn toolFn fuel ChatNode.agent s ≠
        Except.error RunError.nodeError) ∧
      (∀ s, (∃ m fc, s.messages.getLast? = some m ∧ m.functionCall = some fc) →
        runChat modelFn toolFn fuel ChatNode.action s ≠
          Except.error RunError.nodeError) := by
  intro fuel
  induction fuel with
  | zero =>
      refine ⟨fun s => ?_, fun s _ => ?_⟩ <;> simp [runChat]
  | succ n ih =>
      refine ⟨fun s => ?_, fun s hs => ?_⟩
      · simp only [runChat]
        rw [agentSuperstep_snd]
        by_cases hm : (modelFn s.messages).functionCall.isNone
        · simp [hm]
        · simp only [hm, if_false, String.reduceEq, if_pos rfl]
          rcases hfc : (modelFn s.messages).functionCall with _ | fc
          · rw [hfc] at hm; simp at hm
          · exact ih.2 _ ⟨modelFn s.messages, fc, by
              rw [agentSuperstep_fst]; simp, hfc⟩
      · obtain ⟨m, fc, hlast, hfc⟩ := hs
        simp only [runChat]
        have hct : call_tool toolFn s =
            some [⟨Role.function, toolFn fc, none, some fc.name⟩] := by
          simp [call_tool, hlast, hfc]
        rw [hct]
        exact ih.1 _

lemma runChat_agent_step_continue (modelFn : List Message → Message)
    (toolFn : FunctionCall → String) (fuel : Nat) (s : AgentState)
    (h : (agentSuperstep modelFn s).2 = some "continue") :
    runChat modelFn toolFn (fuel + 1) ChatNode.agent s =
      runChat modelFn toolFn fuel ChatNode.action (agentSuperstep modelFn s).1 := by
  simp [runChat, h]

lemma runChat_agent_step_end (modelFn : List Message → Message)
    (toolFn : FunctionCall → String) (fuel : Nat) (s : AgentState)
    (h : (agentSuperstep modelFn s).2 = some "end") :
    runChat modelFn toolFn (fuel + 1) ChatNode.agent s =
      Except.ok (agentSuperstep modelFn s).1 := by
  simp [runChat, h]

lemma runChat_action_step (modelFn : List Message → Message)
    (toolFn : FunctionCall → String) (fuel : Nat) (s : AgentState)
    (upd : List Message) (h : call_tool toolFn s = some upd) :
    runChat modelFn toolFn (fuel + 1) ChatNode.action s =
      runChat modelFn toolFn fuel ChatNode.agent (mergeChat s upd) := by
  simp [runChat, h]

/-- C2: in the two-node cycle graph, starting from `{messages: [H]}`,
when the agent's first produced message carries a `function_call` and its
second does not, the run terminates with exactly four messages in order:
`H`, the marked agent message, the function message, and the unmarked
agent message. -/
theorem claim_C2 (modelFn : List Message → Message) (toolFn : FunctionCall → String)
    (fuel : Nat) (H A1 A2 : Message) (fc : FunctionCall)
    (hA1 : modelFn [H] = A1)
    (hfc : A1.functionCall = some fc)
    (hA2 : modelFn [H, A1, ⟨Role.function, toolFn fc, none, some fc.name⟩] = A2)
    (hA2fc : A2.functionCall = none)
    (hfuel : 3 ≤ fuel) :
    runChat modelFn toolFn fuel ChatNode.agent ⟨[H]⟩ =
      Except.ok ⟨[H, A1, ⟨Role.function, toolFn fc, none, some fc.name⟩, A2]⟩ ∧
    [H, A1, (⟨Role.function, toolFn fc, none, some fc.name⟩ : Message), A2].length = 4 := by
  obtain ⟨k, rfl⟩ : ∃ k, fuel = k + 1 + 1 + 1 := ⟨fuel - 3, by omega⟩
  refine ⟨?_, rfl⟩
  have h1 : (agentSuperstep modelFn ⟨[H]⟩).2 = some "continue" := by
    rw [agentSuperstep_snd]; simp [hA1, hfc]
  rw [runChat_agent_step_continue _ _ _ _ h1]
  have e1 : (agentSuperstep modelFn ⟨[H]⟩).1 = ⟨[H, A1]⟩ := by
    rw [agentSuperstep_fst]; simp [hA1]
  rw [e1]
  have h2 : call_tool toolFn ⟨[H, A1]⟩ =
      some [⟨Role.function, toolFn fc, none, some fc.name⟩] := by
    simp [call_tool, hfc]
  rw [runChat_action_step _ _ _ _ _ h2]
  have e2 : mergeChat ⟨[H, A1]⟩ [⟨Role.function, toolFn fc, none, some fc.name⟩] =
      ⟨[H, A1, ⟨Role.function, toolFn fc, none, some fc.name⟩]⟩ := by
    simp [mergeChat, mergeAppend]
  rw [e2]
  have h3 : (agentSuperstep modelFn
      ⟨[H, A1, ⟨Role.function, toolFn fc, none, some fc.name⟩]⟩).2 = some "end" := by
    rw [agentSuperstep_snd]; simp [hA2, hA2fc]
  rw [runChat_agent_step_end _ _ _ _ h3]
  rw [agentSuperstep_fst]
  simp [hA2]

theorem claim_C2_witness :
    runChat cModelScript cToolConst 3 ChatNode.agent ⟨[humanMessage "hi"]⟩ =
      Except.ok ⟨[humanMessage "hi",
        ⟨Role.ai, "calling", some ⟨"tavily_answer", "{}"⟩, none⟩,
        ⟨Role.function, cToolConst ⟨"tavily_answer", "{}"⟩, none, some "tavily_answer"⟩,
        ⟨Role.ai, "done", none, none⟩]⟩ ∧
    [humanMessage "hi",
      ⟨Role.ai, "calling", some ⟨"tavily_answer", "{}"⟩, none⟩,
      (⟨Role.function, cToolConst ⟨"tavily_answer", "{}"⟩, none,
        some "tavily_answer"⟩ : Message),
      ⟨Role.ai, "done", none, none⟩].length = 4 :=
  claim_C2 cModelScript cToolConst 3 (humanMessage "hi")
    ⟨Role.ai, "calling", some ⟨"tavily_answer", "{}"⟩, none⟩
    ⟨Role.ai, "done", none, none⟩ ⟨"tavily_answer", "{}"⟩
    rfl rfl rfl rfl (by norm_num)

/-- C3: invoking the checkpointed chat graph on a thread with `[H1]` and
later, on the same thread's restored state, with `[H2]` yields a second
final state whose messages are all of the first run's messages, then
`H2`, then whatever the second run appended — checkpoint-backed
continuity, re-entering at the entry point. -/
theorem claim_C3 (modelFn : List Message → Message) (toolFn : FunctionCall → String)
    (fuel1 fuel2 : Nat) (H1 H2 : Message) (s1 s2 : AgentState)
    (h1 : invokeChat modelFn toolFn fuel1 none [H1] = Except.ok s1)
    (h2 : invokeChat modelFn toolFn fuel2 (some s1) [H2] = Except.ok s2) :
    ∃ tail, s2.messages = s1.messages ++ H2 :: tail := by
  simp only [invokeChat, Option.getD] at h2
  obtain ⟨t, ht⟩ := runChat_messages_mono modelFn toolFn fuel2 ChatNode.agent _ _ h2
  refine ⟨t, ?_⟩
  rw [ht]
  simp [mergeChat, mergeAppend]

theorem claim_C3_witness :
    ∃ tail,
      (⟨[humanMessage "a", aiMessage "resp", humanMessage "b", aiMessage "resp"]⟩ :
        AgentState).messages =
      (⟨[humanMessage "a", aiMessage "resp"]⟩ : AgentState).messages ++
        humanMessage "b" :: tail :=
  claim_C3 cModelPlain cToolConst 1 1 (humanMessage "a") (humanMessage "b")
    ⟨[humanMessage "a", aiMessage "resp"]⟩
    ⟨[humanMessage "a", aiMessage "resp", humanMessage "b", aiMessage "resp"]⟩
    rfl rfl

/-- C8: on every run of the chat-executor graph entered at `agent`, the
`action` node only ever executes on states whose last message carries a
`function_call` (the conditional edge routes there only on `"continue"`),
so `call_tool`'s accesses to `messages[-1]` and
`additional_kwargs["function_call"]` never fail: no reachable execution
aborts with a node access error. -/
theorem claim_C8 (modelFn : List Message → Message) (toolFn : FunctionCall → String)
    (fuel : Nat) (s : AgentState) :
    runChat modelFn toolFn fuel ChatNode.agent s ≠ Except.error RunError.nodeError :=
  (runChat_no_nodeError_aux modelFn toolFn fuel).1 s

theorem claim_C8_witness :
    runChat cModelScript cToolConst 3 ChatNode.agent ⟨[humanMessage "hi"]⟩ ≠
      Except.error RunError.nodeError :=
  claim_C8 cModelScript cToolConst 3 ⟨[humanMessage "hi"]⟩

lemma runLimited_never_terminal {ν σ : Type} (step : ν → σ → σ × Option ν)
    (hstep : ∀ n s, (step n s).2.isSome = true) :
    ∀ (rem i : Nat) (node : ν) (s : σ) (cps : List σ),
      ∃ tail, runLimited step rem i node s cps =
        LimitedOutcome.limitExceeded (i + rem) (cps ++ tail) ∧ tail.length = rem := by
  intro rem
  induction rem with
  | zero => intro i node s cps; exact ⟨[], by simp [runLimited], rfl⟩
  | succ m ih =>
      intro i node s cps
      rcases hs : step node s with ⟨s', o⟩
      rcases o with _ | n'
      · have h2 := hstep node s
        rw [hs] at h2
        simp at h2
      · obtain ⟨tail, htail, hlen⟩ := ih (i + 1) n' s' (cps ++ [s'])
        refine ⟨s' :: tail, ?_, by simp [hlen]⟩
        simp only [runLimited, hs]
        rw [htail]
        congr 1
        · omega
        · simp

/-- C4: with recursion limit `N` and a router that never selects the
terminal outcome, the run aborts with the recursion-limit error exactly
at superstep `N + 1` — never earlier, never later — having committed
exactly the `N` in-limit checkpoints, which the abort leaves intact. -/
theorem claim_C4 {ν σ : Type} (step : ν → σ → σ × Option ν)
    (hstep : ∀ n s, (step n s).2.isSome = true) (N : Nat) (entry : ν) (init : σ) :
    ∃ cps, invokeLimited step N entry init =
      LimitedOutcome.limitExceeded (N + 1) cps ∧ cps.length = N := by
  obtain ⟨tail, h, hlen⟩ := runLimited_never_terminal step hstep N 1 entry init []
  rw [Nat.add_comm 1 N, List.nil_append] at h
  exact ⟨tail, h, hlen⟩

theorem claim_C4_witness :
    ∃ cps, invokeLimited cStepLoop 2 () 0 =
      LimitedOutcome.limitExceeded 3 cps ∧ cps.length = 2 :=
  claim_C4 cStepLoop (fun _ _ => rfl) 2 () 0

lemma runSub_ok_finish (agentFn : ExecAgentState → SubOutcome)
    (toolRun : AgentAction → Except String String) :
    ∀ (fuel : Nat) (node : SubNode) (s final : ExecAgentState),
      runSub agentFn toolRun fuel node s = Except.ok final →
      ∃ out, final.agent_outcome = some (SubOutcome.finish out) := by
  intro fuel
  induction fuel with
  | zero => intro node s final h; simp [runSub] at h
  | succ n ih =>
      intro node s final h
      cases node with
      | subagent =>
          simp only [runSub] at h
          split at h
          · exact ih SubNode.action _ _ h
          · rename_i heq
            rcases hout : agentFn s with a | out
            · rw [show sub_should_continue (mergeExec s (run_agent agentFn s)) =
                "continue" from by
                  simp [sub_should_continue, mergeExec, run_agent, mergeReplace, hout]] at heq
              simp at heq
            · refine ⟨out, ?_⟩
              have hfin : final = mergeExec s (run_agent agentFn s) := by
                cases h; rfl
              rw [hfin]
              simp [mergeExec, run_agent, mergeReplace, hout]
          · cases h
      | action =>
          simp only [runSub] at h
          split at h
          · cases h
          · exact ih SubNode.subagent _ _ h

lemma runSub_no_nodeError_aux (agentFn : ExecAgentState → SubOutcome)
    (toolRun : AgentAction → Except String String) :
    ∀ fuel : Nat,
      (∀ s, runSub agentFn toolRun fuel SubNode.subagent s ≠
        Except.error RunError.nodeError) ∧
      (∀ s, (∃ a, s.agent_outcome = some (SubOutcome.action a)) →
        runSub agentFn toolRun fuel SubNode.action s ≠
          Except.error RunError.nodeError) := by
  intro fuel
  induction fuel with
  | zero => refine ⟨fun s => ?_, fun s _ => ?_⟩ <;> simp [runSub]
  | succ n ih =>
      refine ⟨fun s => ?_, fun s hs => ?_⟩
      · simp only [runSub]
        split
        · rename_i heq
          rcases hout : agentFn s with a | out
          · refine ih.2 _ ⟨a, ?_⟩
            simp [mergeExec, run_agent, mergeReplace, hout]
          · rw [show sub_should_continue (mergeExec s (run_agent agentFn s)) =
              "end" from by
                simp [sub_should_continue, mergeExec, run_agent, mergeReplace, hout]] at heq
            simp at heq
        · simp
        · simp
      · obtain ⟨a, ha⟩ := hs
        simp only [runSub]
        have hex : execute_tools toolRun s =
            some { intermediate_steps := some (execute_tools_core toolRun [a]) } := by
          simp [execute_tools, ha]
        rw [hex]
        exact ih.1 _

/-- C6: `execute_step` projects the parent state into the sub-graph's
input (`input` = the first plan step, `chat_history` = the parent's
messages), runs the compiled sub-graph's own superstep loop to its own
terminal outcome (the final state's `agent_outcome` is an `AgentFinish`,
on which the sub-router answers `"end"`), and projects only that final
outcome back into the parent as a single appended `past_steps` entry,
touching no other field. -/
theorem claim_C6 (agentFn : ExecAgentState → SubOutcome)
    (toolRun : AgentAction → Except String String) (subFuel : Nat)
    (s : PlanExecute) (task : String) (rest : List String)
    (final : ExecAgentState)
    (hplan : s.plan = some (task :: rest))
    (hrun : runSub agentFn toolRun subFuel SubNode.subagent
      ⟨task, s.messages, none, []⟩ = Except.ok final) :
    ∃ out, final.agent_outcome = some (SubOutcome.finish out) ∧
      sub_should_continue final = "end" ∧
      execute_step agentFn toolRun subFuel s =
        Except.ok ⟨none, none, none, some [(task, out)], none⟩ := by
  obtain ⟨out, hout⟩ := runSub_ok_finish agentFn toolRun subFuel _ _ _ hrun
  refine ⟨out, hout, by simp [sub_should_continue, hout], ?_⟩
  simp only [execute_step, hplan, hrun, hout]

theorem claim_C6_witness :
    ∃ out, (⟨"t", [], some (SubOutcome.finish "done"), []⟩ :
        ExecAgentState).agent_outcome = some (SubOutcome.finish out) ∧
      sub_should_continue ⟨"t", [], some (SubOutcome.finish "done"), []⟩ = "end" ∧
      execute_step cAgentFinish cToolOk 1 ⟨some "q", [], some ["t"], [], none⟩ =
        Except.ok ⟨none, none, none, some [("t", out)], none⟩ :=
  claim_C6 cAgentFinish cToolOk 1 ⟨some "q", [], some ["t"], [], none⟩ "t" []
    ⟨"t", [], some (SubOutcome.finish "done"), []⟩ rfl rfl

lemma plan_step_ok_shape (plannerFn : String → List Message → List String)
    (s : PlanExecute) (u : PEUpdate)
    (h : plan_step plannerFn s = Except.ok u) :
    ∃ obj, s.input = some obj ∧
      u = ⟨none, none, some (plannerFn obj s.messages), none, some ""⟩ := by
  unfold plan_step at h
  split at h
  · cases h
  · rename_i obj hobj
    exact ⟨obj, hobj, by cases h; rfl⟩

lemma execute_step_ok_shape (agentFn : ExecAgentState → SubOutcome)
    (toolRun : AgentAction → Except String String) (subFuel : Nat)
    (s : PlanExecute) (u : PEUpdate)
    (h : execute_step agentFn toolRun subFuel s = Except.ok u) :
    ∃ task out, u = ⟨none, none, none, some [(task, out)], none⟩ := by
  unfold execute_step at h
  split at h
  · cases h
  · cases h
  · rename_i task rest hplan
    split at h
    · cases h
    · split at h
      · rename_i out hout
        exact ⟨task, out, by cases h; rfl⟩
      · cases h

lemma replan_step_messages (replannerFn : PlanExecute → ReplanOutput)
    (s : PlanExecute) :
    (replan_step replannerFn s).messages = none ∨
      ∃ c, (replan_step replannerFn s).messages = some [aiMessage c] ∧
        (replan_step replannerFn s).response = some c := by
  rcases hro : replannerFn s with steps | r | q | imp
  · left; simp [replan_step, hro]
  · right; exact ⟨r, by simp [replan_step, hro], by simp [replan_step, hro]⟩
  · right; exact ⟨q, by simp [replan_step, hro], by simp [replan_step, hro]⟩
  · right; exact ⟨imp, by simp [replan_step, hro], by simp [replan_step, hro]⟩

lemma execute_step_no_nodeError (agentFn : ExecAgentState → SubOutcome)
    (toolRun : AgentAction → Except String String) (subFuel : Nat)
    (s : PlanExecute) (task : String) (rest : List String)
    (hplan : s.plan = some (task :: rest)) :
    execute_step agentFn toolRun subFuel s ≠ Except.error RunError.nodeError := by
  simp only [execute_step, hplan]
  rcases hr : runSub agentFn toolRun subFuel SubNode.subagent
      ⟨task, s.messages, none, []⟩ with e | final
  · have hne := (runSub_no_nodeError_aux agentFn toolRun subFuel).1
      ⟨task, s.messages, none, []⟩
    rw [hr] at hne
    simpa using hne
  · obtain ⟨out, hout⟩ := runSub_ok_finish agentFn toolRun subFuel _ _ _ hr
    simp [hout]

lemma runPE_no_nodeError_aux (plannerFn : String → List Message → List String)
    (agentFn : ExecAgentState → SubOutcome)
    (toolRun : AgentAction → Except String String)
    (replannerFn : PlanExecute → ReplanOutput) (subFuel : Nat)
    (hplanner : ∀ o h, plannerFn o h ≠ [])
    (hreplanner : ∀ st steps, replannerFn st = ReplanOutput.plan steps → steps ≠ []) :
    ∀ (fuel : Nat) (node : PENode) (s : PlanExecute), PEinv node s →
      runPE plannerFn agentFn toolRun replannerFn subFuel fuel node s ≠
        Except.error RunError.nodeError := by
  intro fuel
  induction fuel with
  | zero => intro node s _; simp [runPE]
  | succ n ih =>
      intro node s hinv
      cases node with
      | planner =>
          obtain ⟨obj, hobj⟩ := Option.isSome_iff_exists.mp hinv
          have hps : plan_step plannerFn s =
              Except.ok ⟨none, none, some (plannerFn obj s.messages), none, some ""⟩ := by
            simp [plan_step, hobj]
          simp only [runPE, hps]
          refine ih PENode.agent _ ?_
          exact ⟨plannerFn obj s.messages, by simp [mergePE, mergeReplace],
            hplanner obj s.messages⟩
      | agent =>
          obtain ⟨l, hl, hne⟩ := hinv
          rcases l with _ | ⟨task, rest⟩
          · exact absurd rfl hne
          simp only [runPE]
          rcases he : execute_step agentFn toolRun subFuel s with e | u
          · have := execute_step_no_nodeError agentFn toolRun subFuel s task rest hl
            rw [he] at this
            simpa using this
          · obtain ⟨task', out, hu⟩ := execute_step_ok_shape agentFn toolRun subFuel s u he
            refine ih PENode.replan _ ?_
            refine ⟨task :: rest, ?_, hne⟩
            subst hu
            simp [mergePE, mergeReplace, hl]
      | replan =>
          obtain ⟨l, hl, hne⟩ := hinv
          simp only [runPE]
          by_cases hend : should_end (mergePE s (replan_step replannerFn s)) = true
          · simp [hend]
          · rw [if_neg hend]
            refine ih PENode.agent _ ?_
            rcases hro : replannerFn s with steps | r | q | imp
            · exact ⟨steps, by simp [mergePE, mergeReplace, replan_step, hro],
                hreplanner s steps hro⟩
            · exact ⟨l, by simp [mergePE, mergeReplace, replan_step, hro, hl], hne⟩
            · exact ⟨l, by simp [mergePE, mergeReplace, replan_step, hro, hl], hne⟩
            · exact ⟨l, by simp [mergePE, mergeReplace, replan_step, hro, hl], hne⟩

/-- C9 (amended): the claim as stated fails — `plan_step` and
`replan_step` forward the opaque planner's list unchecked, so a planner
(or replanner) returning an empty plan reaches `execute_step` with
`plan = []` and its unguarded `state["plan"][0]` access fails (see the
counterexample).  Amended: provided the caller supplied `input` and the
planner and every replanner `Plan` output are non-empty, every reachable
`execute_step` entry has a non-empty plan, and no run from the entry
point aborts with a node access error. -/
theorem claim_C9 (plannerFn : String → List Message → List String)
    (agentFn : ExecAgentState → SubOutcome)
    (toolRun : AgentAction → Except String String)
    (replannerFn : PlanExecute → ReplanOutput) (subFuel fuel : Nat)
    (s : PlanExecute)
    (hinput : s.input.isSome = true)
    (hplanner : ∀ o h, plannerFn o h ≠ [])
    (hreplanner : ∀ st steps, replannerFn st = ReplanOutput.plan steps → steps ≠ []) :
    runPE plannerFn agentFn toolRun replannerFn subFuel fuel PENode.planner s ≠
      Except.error RunError.nodeError :=
  runPE_no_nodeError_aux plannerFn agentFn toolRun replannerFn subFuel
    hplanner hreplanner fuel PENode.planner s hinput

/-- C9 counterexample: with a planner that returns an empty plan (a
schema-conformant opaque output), the run from the entry point reaches
`execute_step` with `plan = []` and aborts with a node access error —
refuting that the plan is non-empty whenever `execute_step` begins. -/
theorem claim_C9_counterexample :
    runPE cPlannerEmpty cAgentFinish cToolOk cReplanResp 1 3 PENode.planner peStart =
      Except.error RunError.nodeError ∧
    execute_step cAgentFinish cToolOk 1
      (mergePE peStart ⟨none, none, some [], none, some ""⟩) =
      Except.error RunError.nodeError := by
  constructor <;> rfl

theorem claim_C9_witness :
    runPE cPlannerOne cAgentFinish cToolOk cReplanResp 1 5 PENode.planner peStart ≠
      Except.error RunError.nodeError :=
  claim_C9 cPlannerOne cAgentFinish cToolOk cReplanResp 1 5 peStart rfl
    (fun o h => by simp [cPlannerOne])
    (fun st steps h => by simp [cReplanResp] at h)

lemma runPE_messages_ai (plannerFn : String → List Message → List String)
    (agentFn : ExecAgentState → SubOutcome)
    (toolRun : AgentAction → Except String String)
    (replannerFn : PlanExecute → ReplanOutput) (subFuel : Nat) :
    ∀ (fuel : Nat) (node : PENode) (s s' : PlanExecute),
      (∀ m ∈ s.messages, m.role = Role.ai) →
      runPE plannerFn agentFn toolRun replannerFn subFuel fuel node s =
        Except.ok s' →
      ∀ m ∈ s'.messages, m.role = Role.ai := by
  intro fuel
  induction fuel with
  | zero => intro node s s' _ h; simp [runPE] at h
  | succ n ih =>
      intro node s s' hAI h
      cases node with
      | planner =>
          simp only [runPE] at h
          split at h
          · cases h
          · rename_i u hu
            refine ih PENode.agent _ _ ?_ h
            obtain ⟨obj, _, hu'⟩ := plan_step_ok_shape plannerFn s u hu
            subst hu'
            intro m hm
            simp only [mergePE, mergeAppend] at hm
            simp at hm
            exact hAI m hm
      | agent =>
          simp only [runPE] at h
          split at h
          · cases h
          · rename_i u hu
            refine ih PENode.replan _ _ ?_ h
            obtain ⟨task, out, hu'⟩ := execute_step_ok_shape agentFn toolRun subFuel s u hu
            subst hu'
            intro m hm
            simp only [mergePE, mergeAppend] at hm
            simp at hm
            exact hAI m hm
      | replan =>
          simp only [runPE] at h
          have hmsg : ∀ m ∈ (mergePE s (replan_step replannerFn s)).messages,
              m.role = Role.ai := by
            intro m hm
            simp only [mergePE, mergeAppend] at hm
            rcases List.mem_append.mp hm with h1 | h2
            · exact hAI m h1
            · rcases hro : replannerFn s with steps | r | q | imp
              · simp [replan_step, hro] at h2
              · simp [replan_step, hro] at h2; subst h2; rfl
              · simp [replan_step, hro] at h2; subst h2; rfl
              · simp [replan_step, hro] at h2; subst h2; rfl
          by_cases hend : should_end (mergePE s (replan_step replannerFn s)) = true
          · rw [if_pos hend] at h
            cases h
            exact hmsg
          · rw [if_neg hend] at h
            exact ih PENode.agent _ _ hmsg h

/-- C10: in the plan-and-execute graph only `replan_step` ever writes to
the `append`-policy `messages` field — `plan_step` and `execute_step`
updates never touch it — and every element it appends is a single
`AIMessage` carrying exactly the final response, the question to the
user, or the impossibility notice; the human input arrives only through
the `replace`-policy `input` field, so across any number of `run_app`
invocations on a thread the `messages` field holds only AI-produced
messages. -/
theorem claim_C10 :
    (∀ (plannerFn : String → List Message → List String) (s : PlanExecute)
      (u : PEUpdate), plan_step plannerFn s = Except.ok u → u.messages = none) ∧
    (∀ (agentFn : ExecAgentState → SubOutcome)
      (toolRun : AgentAction → Except String String) (subFuel : Nat)
      (s : PlanExecute) (u : PEUpdate),
      execute_step agentFn toolRun subFuel s = Except.ok u → u.messages = none) ∧
    (∀ (replannerFn : PlanExecute → ReplanOutput) (s : PlanExecute),
      (replan_step replannerFn s).messages = none ∨
        ∃ c, (replan_step replannerFn s).messages = some [aiMessage c] ∧
          (replan_step replannerFn s).response = some c) ∧
    (∀ (plannerFn : String → List Message → List String)
      (agentFn : ExecAgentState → SubOutcome)
      (toolRun : AgentAction → Except String String)
      (replannerFn : PlanExecute → ReplanOutput)
      (subFuel limit : Nat) (saved : Option PlanExecute) (input : String)
      (s' : PlanExecute),
      (∀ m ∈ (saved.getD emptyPE).messages, m.role = Role.ai) →
      run_app plannerFn agentFn toolRun replannerFn subFuel limit saved input =
        Except.ok s' →
      ∀ m ∈ s'.messages, m.role = Role.ai) := by
  refine ⟨?_, ?_, ?_, ?_⟩
  · intro plannerFn s u h
    obtain ⟨obj, _, hu⟩ := plan_step_ok_shape plannerFn s u h
    subst hu; rfl
  · intro agentFn toolRun subFuel s u h
    obtain ⟨task, out, hu⟩ := execute_step_ok_shape agentFn toolRun subFuel s u h
    subst hu; rfl
  · intro replannerFn s
    exact replan_step_messages replannerFn s
  · intro plannerFn agentFn toolRun replannerFn subFuel limit saved input s' hAI h
    refine runPE_messages_ai plannerFn agentFn toolRun replannerFn subFuel limit
      PENode.planner _ _ ?_ h
    intro m hm
    simp only [mergePE, mergeAppend] at hm
    simp at hm
    exact hAI m hm

theorem claim_C10_witness :
    run_app cPlannerOne cAgentFinish cToolOk cReplanResp 1 3 none "q" =
      Except.ok ⟨some "q", [aiMessage "answer"], some ["step"],
        [("step", "done")], some "answer"⟩ ∧
    (aiMessage "answer").role = Role.ai := by
  refine ⟨rfl, ?_⟩
  exact claim_C10.2.2.2 cPlannerOne cAgentFinish cToolOk cReplanResp 1 3 none "q"
    ⟨some "q", [aiMessage "answer"], some ["step"], [("step", "done")], some "answer"⟩
    (fun m hm => by simp [emptyPE] at hm) rfl (aiMessage "answer") (by simp)
